import Mathlib

/-!
Verification of the viem-hw hardware-wallet library core against its
specification.  The TypeScript sources are shallowly embedded:

* hex/decimal digit strings are modelled as `List Char` / `String`;
* JavaScript `number` arithmetic that can leave the integers (the RLP
  encoder's `lenHex.length / 2` computation) is modelled over `ℚ`;
* fallible code (thrown exceptions) returns `Option`;
* the `ox` dependency (`Hex.fromBytes`, `Hex.fromNumber`,
  `Signature.from`/`Signature.toHex`) is modelled from its documented
  behaviour where the repository calls into it.
-/

set_option maxRecDepth 100000

namespace ViemHW

/-- Value of a hexadecimal digit character, accepting both cases
(JS `BigInt`/`parseInt` hex digits). -/
def hexDigitVal (c : Char) : Option Nat :=
  if '0' ≤ c ∧ c ≤ '9' then some (c.toNat - 48)
  else if 'a' ≤ c ∧ c ≤ 'f' then some (c.toNat - 87)
  else if 'A' ≤ c ∧ c ≤ 'F' then some (c.toNat - 55)
  else none

/-- Fuel-driven digit expansion (structural recursion so that the kernel
can evaluate it; the fuel is irrelevant once it exceeds `n`). -/
def natDigitsAux (b : Nat) : Nat → Nat → List Char
  | _, 0 => []
  | n, fuel + 1 =>
    if n = 0 then [] else natDigitsAux b (n / b) fuel ++ [Nat.digitChar (n % b)]

/-- Minimal big-endian digit string of `n` in base `b` (empty for `0`),
using the digit characters of JS `Number.prototype.toString(b)`
(lowercase letters above `9`). -/
def natDigits (b n : Nat) : List Char := natDigitsAux b n (n + 1)

/-- Fold a list of hex digit characters onto accumulator `a`
(the semantics of parsing `a`'s digits followed by the list);
`none` on a non-hex character. -/
def parseHexDigitsFrom (a : Nat) : List Char → Option Nat
  | [] => some a
  | c :: cs => (hexDigitVal c).bind fun d => parseHexDigitsFrom (16 * a + d) cs

/-- Fold decimal digit characters onto accumulator `a`
(used only after the characters were checked to be `\d`). -/
def decValFrom (a : Nat) : List Char → Nat
  | [] => a
  | c :: cs => decValFrom (10 * a + (c.toNat - 48)) cs

/-- JS `String.prototype.includes`: `sub` occurs contiguously in `s`. -/
def strIncludes (s sub : String) : Bool := decide (sub.data <:+: s.data)

/-- ASCII lowercase of one character (all characters the classifiers
compare are ASCII). -/
def asciiLower (c : Char) : Char :=
  if 'A' ≤ c ∧ c ≤ 'Z' then Char.ofNat (c.toNat + 32) else c

/-- JS `String.prototype.toLowerCase` on ASCII content. -/
def jsToLower (s : String) : String := String.mk (s.data.map asciiLower)

/-- One component of a parsed derivation path
(`{index: number; hardened: boolean}` in `shared/paths.ts`). -/
structure PathSegment where
  index : Nat
  hardened : Bool
deriving DecidableEq, Repr

/-- JS `text.split("/")` on a list of characters: splits at every `'/'`,
keeping empty segments, never returning an empty list. -/
def splitSlash : List Char → List (List Char)
  | [] => [[]]
  | c :: rest =>
    if c = '/' then [] :: splitSlash rest
    else
      match splitSlash rest with
      | [] => [[c]]
      | s :: ss => (c :: s) :: ss

/-- `path.startsWith("m/")` of `shared/paths.ts`, on the character list. -/
def startsWithMSlashL : List Char → Bool
  | c₁ :: c₂ :: _ => c₁ == 'm' && c₂ == '/'
  | _ => false

/-- `path.startsWith("m/")` of `shared/paths.ts`. -/
def startsWithMSlash (s : String) : Bool := startsWithMSlashL s.data

/-- `part.endsWith("'")` of `isValidPath`. -/
def segIsHardened (part : List Char) : Bool := part.getLast? == some '\''

/-- The numeric text of a path segment: the segment without a trailing
hardening mark (`isHardened ? part.slice(0, -1) : part`). -/
def segNumStr (part : List Char) : List Char :=
  if segIsHardened part then part.dropLast else part

/-- The per-segment check of `isValidPath`: the numeric text matches
`/^\d+$/` and its `parseInt` value is at most `0x7fffffff`. -/
def validSeg (part : List Char) : Bool :=
  (!(segNumStr part).isEmpty) && (segNumStr part).all Char.isDigit
    && decide (decValFrom 0 (segNumStr part) ≤ 0x7fffffff)

/-- `isValidPath` of `shared/paths.ts`: a `"m/"` marker, then
`/`-separated components, each decimal and at most `2^31 - 1`; the split
may not be empty or a single empty component. -/
def isValidPath (path : String) : Bool :=
  if startsWithMSlash path then
    let parts := splitSlash (path.data.drop 2)
    if parts.isEmpty || parts == [[]] then false else parts.all validSeg
  else false

/-- One parsed component of `parsePath` (`{index, hardened}`). -/
def parseSeg (part : List Char) : PathSegment :=
  ⟨decValFrom 0 (segNumStr part), segIsHardened part⟩

/-- `parsePath` of `shared/paths.ts`; the thrown `InvalidPathError` is
modelled as `none`. -/
def parsePath (path : String) : Option (List PathSegment) :=
  if isValidPath path then some ((splitSlash (path.data.drop 2)).map parseSeg)
  else none

/-- JS `String(n)` for a non-negative integer below `10^21`
(decimal digits, `"0"` for zero). -/
def jsDecString (n : Nat) : String := String.mk (if n = 0 then ['0'] else natDigits 10 n)

/-- A finite JS `number` as consumed by `buildPath`: either integral
(carried exactly) or non-integral (`Number.isInteger` is false; its
value is irrelevant because the guard rejects it). -/
inductive JsNum where
  | int (i : Int)
  | nonInt
deriving DecidableEq, Repr

/-- The guard `index < 0 || !Number.isInteger(index)` of `buildPath`. -/
def jsNumBad : JsNum → Bool
  | .int i => decide (i < 0)
  | .nonInt => true

/-- The integral value of a `JsNum` that passed the guard. -/
def jsNumToNat : JsNum → Nat
  | .int i => i.toNat
  | .nonInt => 0

/-- `buildPath` of `shared/paths.ts`; each thrown `InvalidPathError` is
modelled as `none`. -/
def buildPath (basePath : String) (index : JsNum) : Option String :=
  if !(startsWithMSlash basePath) then none
  else if jsNumBad index then none
  else
    let fullPath := basePath ++ "/" ++ jsDecString (jsNumToNat index)
    if isValidPath fullPath then some fullPath else none

/-- Two lowercase hex digits of one byte (ox `Hex.fromBytes` per-byte). -/
def byteHexPair (b : Nat) : List Char := [Nat.digitChar (b / 16 % 16), Nat.digitChar (b % 16)]

/-- ox `Hex.fromBytes`: `0x` plus two lowercase hex digits per byte. -/
def oxHexFromBytes (bs : List Nat) : String :=
  String.mk ('0' :: 'x' :: (bs.map byteHexPair).flatten)

/-- JS `BigInt(s)` restricted to the `0x`-prefixed strings the library's
`Hex` values always are; `none` models the thrown `SyntaxError` (empty
or non-hex digits). -/
def parseHexNat (s : String) : Option Nat :=
  match s.data with
  | '0' :: 'x' :: rest => if rest.isEmpty then none else parseHexDigitsFrom 0 rest
  | _ => none

/-- Left-pad a digit string with zeros to 64 characters. -/
def pad64 (ds : List Char) : List Char := List.replicate (64 - ds.length) '0' ++ ds

/-- ox `Hex.fromNumber(n, { size: 32 })`: 64 lowercase hex digits;
`none` models the throw on a negative value
(`IntegerOutOfRangeError`) or one not fitting 32 bytes
(`SizeOverflowError`). -/
def oxHexFromNumber32 (n : Int) : Option String :=
  if n < 0 then none
  else if n.toNat < 2 ^ 256 then
    some (String.mk ('0' :: 'x' :: pad64 (natDigits 16 n.toNat)))
  else none

/-- The secp256k1 group order constant of `shared/signatures.ts`. -/
def curveOrder : Nat :=
  0xfffffffffffffffffffffffffffffffebaaedce6af48a03bbfd25e8cd0364141

/-- `curveOrder / 2n` (bigint division truncates). -/
def halfOrder : Nat := curveOrder / 2

/-- `normalizeS` of `shared/signatures.ts` (EIP-2 low-S rule): if the
value exceeds `halfOrder`, re-encode `curveOrder - s` as a 32-byte hex
string, else return the input string unchanged.  `none` models a throw
(unparsable input, or ox rejecting a negative difference). -/
def normalizeS (s : String) : Option String :=
  (parseHexNat s).bind fun sv =>
    if halfOrder < sv then oxHexFromNumber32 ((curveOrder : Int) - (sv : Int))
    else some s

/-- `normalizeV` of `shared/signatures.ts`.  JS bigints are `Int`; the
JS `%` on bigints is the truncating remainder `Int.tmod`. -/
def normalizeV (v : Int) : Int :=
  if v = 0 ∨ v = 1 then v + 27
  else if v = 27 ∨ v = 28 then v
  else if 35 ≤ v then v
  else Int.tmod v 2 + 27

/-- `SignatureComponents` of `shared/types.ts` (`r`, `s` are `Hex`
strings, `v` a bigint). -/
structure SignatureComponents where
  r : String
  s : String
  v : Int
deriving DecidableEq, Repr

/-- An `r`/`s` argument of `parseSignatureBytes`: a hex string or a
`Uint8Array` (list of bytes). -/
inductive ByteInput where
  | hex (h : String)
  | bytes (bs : List Nat)
deriving DecidableEq, Repr

/-- The `typeof r === "string" ? r : Hex.fromBytes(r)` conversion of
`parseSignatureBytes`. -/
def byteInputToHex : ByteInput → String
  | .hex h => h
  | .bytes bs => oxHexFromBytes bs

/-- `parseSignatureBytes` of `shared/signatures.ts`. -/
def parseSignatureBytes (r s : ByteInput) (v : Int) : SignatureComponents :=
  ⟨byteInputToHex r, byteInputToHex s, normalizeV v⟩

/-- The `yParity` computed inside `serializeSignature`:
`components.v === 28n || components.v % 2n === 0n ? 1 : 0`. -/
def jsYParity (v : Int) : Nat := if v = 28 ∨ Int.tmod v 2 = 0 then 1 else 0

/-- Modelled from the ox library: `Signature.from` validates that `r`
and `s` lie in `[0, 2^256)` and `Signature.toHex` serializes
`r` (32 bytes) ∥ `s` (32 bytes) ∥ a single byte `27 + yParity`
(`1b`/`1c`). -/
def oxSignatureToHex (r s yParity : Nat) : Option String :=
  if r < 2 ^ 256 ∧ s < 2 ^ 256 then
    some (String.mk ('0' :: 'x' :: (pad64 (natDigits 16 r) ++ pad64 (natDigits 16 s)
      ++ (if yParity = 0 then ['1', 'b'] else ['1', 'c']))))
  else none

/-- `serializeSignature` of `shared/signatures.ts`; `none` models a
throw from `BigInt` parsing or from ox validation. -/
def serializeSignature (c : SignatureComponents) : Option String :=
  (parseHexNat c.r).bind fun rv =>
    (parseHexNat c.s).bind fun sv =>
      oxSignatureToHex rv sv (jsYParity c.v)

/-- `toViemSignature` of `shared/signatures.ts`:
`serializeSignature` after `normalizeS`. -/
def toViemSignature (c : SignatureComponents) : Option String :=
  (normalizeS c.s).bind fun s2 => serializeSignature ⟨c.r, s2, c.v⟩

/-- The unified error value of `shared/errors.ts`: its class name,
`message` and `code`. -/
structure HardwareWalletError where
  name : String
  message : String
  code : String
deriving DecidableEq, Repr

/-- A plain `new HardwareWalletError(message, code)`. -/
def hwError (message code : String) : HardwareWalletError :=
  ⟨"HardwareWalletError", message, code⟩

/-- `new UserRejectedError(action)`. -/
def UserRejectedError (action : String) : HardwareWalletError :=
  ⟨"UserRejectedError", "User rejected " ++ action ++ " on device", "USER_REJECTED"⟩

/-- `new DeviceNotFoundError(vendor, details)`; an omitted `details` and
an empty one are both falsy and add no suffix. -/
def DeviceNotFoundError (vendor details : String) : HardwareWalletError :=
  ⟨"DeviceNotFoundError",
    (if vendor == "ledger" then "Ledger" else "Trezor") ++ " device not found"
      ++ (if details == "" then "" else ": " ++ details),
    "DEVICE_NOT_FOUND"⟩

/-- `new DeviceLockedError(vendor)`. -/
def DeviceLockedError (vendor : String) : HardwareWalletError :=
  ⟨"DeviceLockedError",
    (if vendor == "ledger" then "Ledger" else "Trezor")
      ++ " device is locked. Please unlock it first.",
    "DEVICE_LOCKED"⟩

/-- `new AppNotOpenError(requiredApp)` (default `"Ethereum"`). -/
def AppNotOpenError (requiredApp : String) : HardwareWalletError :=
  ⟨"AppNotOpenError", "Please open the " ++ requiredApp ++ " app on your Ledger device",
    "APP_NOT_OPEN"⟩

/-- `new UnsupportedOperationError(operation)` with the reason omitted,
as `mapLedgerError` calls it. -/
def UnsupportedOperationError (operation : String) : HardwareWalletError :=
  ⟨"UnsupportedOperationError", "Unsupported operation: " ++ operation,
    "UNSUPPORTED_OPERATION"⟩

/-- An arbitrary value passed to `mapLedgerError`: `null`/`undefined`
(property access throws), an already-classified error, or anything else
— an object with optional `statusCode`/`message`/`name` fields (a
primitive is the all-`none` case), together with its `String(error)`
rendering. -/
inductive LedgerFault where
  | nullish
  | hw (e : HardwareWalletError)
  | obj (statusCode : Option Nat) (message : Option String) (errName : Option String)
      (toStr : String)
deriving DecidableEq, Repr

/-- The `switch (err.statusCode)` table of `mapLedgerError`;
`none` when no case matches. -/
def ledgerStatusSwitch (sc : Nat) (message : String) : Option HardwareWalletError :=
  if sc = 0x6985 ∨ sc = 0x6986 then some (UserRejectedError "signature")
  else if sc = 0x6a80 ∨ sc = 0x6a82 then
    some (hwError ("Invalid data: " ++ message) "INVALID_DATA")
  else if sc = 0x6b00 then some (hwError ("Wrong parameter: " ++ message) "WRONG_PARAMETER")
  else if sc = 0x6d00 ∨ sc = 0x6e00 then some (UnsupportedOperationError message)
  else if sc = 0x6faa then some (DeviceLockedError "ledger")
  else none

/-- The string-based fallback detection of `mapLedgerError`
(`String.prototype.includes` is case-sensitive; only the `0x6faa` check
lowercases the message first). -/
def ledgerHeuristics (message : String) (errName : Option String) : HardwareWalletError :=
  if strIncludes message "0x6985" || strIncludes message "denied"
      || strIncludes message "rejected" then
    UserRejectedError "signature"
  else if strIncludes message "locked" || strIncludes message "pin"
      || strIncludes (jsToLower message) "0x6faa" then
    DeviceLockedError "ledger"
  else if strIncludes message "not found" || strIncludes message "no device"
      || errName == some "TransportOpenUserCancelled" then
    DeviceNotFoundError "ledger" message
  else if strIncludes message "app"
      && (strIncludes message "open" || strIncludes message "launch") then
    AppNotOpenError "Ethereum"
  else hwError message "UNKNOWN_ERROR"

/-- `mapLedgerError` of `shared/errors.ts`; `none` models the
`TypeError` thrown by `err.message` on `null`/`undefined`. -/
def mapLedgerError : LedgerFault → Option HardwareWalletError
  | .nullish => none
  | .hw e => some e
  | .obj sc msg errName toStr =>
    let message := msg.getD toStr
    some ((sc.bind fun c => ledgerStatusSwitch c message).getD
      (ledgerHeuristics message errName))

/-- An arbitrary value passed to `mapTrezorError` (optional
`code`/`message`/`error` fields). -/
inductive TrezorFault where
  | nullish
  | hw (e : HardwareWalletError)
  | obj (code : Option String) (message : Option String) (errorField : Option String)
      (toStr : String)
deriving DecidableEq, Repr

/-- The `switch (code)` table of `mapTrezorError`; `none` when no case
matches. -/
def trezorCodeSwitch (code message : String) : Option HardwareWalletError :=
  if code = "Failure_ActionCancelled" ∨ code = "Method_Cancel" then
    some (UserRejectedError "signature")
  else if code = "Device_CallInProgress" then
    some (hwError "Device is busy with another operation" "DEVICE_BUSY")
  else if code = "Device_InvalidState" ∨ code = "Device_NotInitialized" then
    some (DeviceLockedError "trezor")
  else if code = "Transport_Missing" ∨ code = "Device_NotFound" then
    some (DeviceNotFoundError "trezor" message)
  else none

/-- The string-based fallback detection of `mapTrezorError`. -/
def trezorHeuristics (message : String) : HardwareWalletError :=
  if strIncludes message "cancelled" || strIncludes message "rejected"
      || strIncludes message "denied" then
    UserRejectedError "signature"
  else if strIncludes message "not found" || strIncludes message "no device" then
    DeviceNotFoundError "trezor" message
  else if strIncludes message "pin" || strIncludes message "passphrase"
      || strIncludes message "locked" then
    DeviceLockedError "trezor"
  else hwError message "UNKNOWN_ERROR"

/-- `mapTrezorError` of `shared/errors.ts`; `none` models the
`TypeError` thrown by `err.code` on `null`/`undefined`. -/
def mapTrezorError : TrezorFault → Option HardwareWalletError
  | .nullish => none
  | .hw e => some e
  | .obj code msg errorField toStr =>
    let message := msg.getD (errorField.getD toStr)
    some ((trezorCodeSwitch (code.getD "") message).getD (trezorHeuristics message))

/-- Minimal hex rendering of a non-negative integer,
JS `n.toString(16)` (so `"0"` for zero). -/
def jsHexChars (n : Nat) : List Char := if n = 0 then ['0'] else natDigits 16 n

/-- `v.toString(16)` for the JS numbers arising in the RLP encoder: all
are integer multiples of one half, represented here by their doubles
(`n2` stands for the value `n2 / 2`); a half contributes the single
fractional hex digit `8`. -/
def jsHalfToHexStr (n2 : Nat) : List Char :=
  if n2 % 2 = 0 then jsHexChars (n2 / 2)
  else jsHexChars (n2 / 2) ++ '.' :: ['8']

/-- JS `padStart(target, "0")` on a character list. -/
def padStartZeros (target : Nat) (cs : List Char) : List Char :=
  List.replicate (target - cs.length) '0' ++ cs

/-- JS `parseInt(hex, 16) < 128` (`parseInt` reads the longest valid
hex-digit head; an empty head gives `NaN`, and `NaN < 128` is false). -/
def jsParseIntHexLt128 (cs : List Char) : Bool :=
  let pre := cs.takeWhile fun c => (hexDigitVal c).isSome
  if pre.isEmpty then false
  else
    match parseHexDigitsFrom 0 pre with
    | some v => decide (v < 128)
    | none => false

/-- A value handed to `rlpEncode`: a string, an array, or anything else
(the `return "0x80"` default). -/
inductive RlpInput where
  | str (s : String)
  | list (xs : List RlpInput)
  | other

/-- The hex-string branch of `rlpEncode`.  Lengths are JS numbers; the
half-integral values (`hex.length / 2` and
`lenHex.length / 2 + lenHex.length % 2`) are carried as doubles, so
`0x80`, `0xb7` and `55` appear as `0x100`, `0x16e` and `110`. -/
def rlpStrBody (s : String) : String :=
  match s.data with
  | '0' :: 'x' :: hex =>
    if hex.isEmpty then "0x80"
    else if hex.length = 2 && jsParseIntHexLt128 hex then s
    else if hex.length ≤ 110 then
      String.mk ('0' :: 'x' :: (jsHalfToHexStr (0x100 + hex.length) ++ hex))
    else
      let lenHexStr := jsHalfToHexStr hex.length
      let lenBytes2 := lenHexStr.length + 2 * (lenHexStr.length % 2)
      String.mk ('0' :: 'x' :: (jsHalfToHexStr (0x16e + lenBytes2)
        ++ padStartZeros lenBytes2 lenHexStr ++ hex))
  | _ => "0x80"

/-- The array branch of `rlpEncode`, applied to the encoded children
already stripped of their `0x` prefix; `0xc0`/`0xf7` appear doubled as
`0x180`/`0x1ee`, and this branch computes the length of the length with
`Math.ceil`. -/
def rlpListBody (encodedBodies : List (List Char)) : String :=
  let concatenated := encodedBodies.flatten
  if concatenated.length ≤ 110 then
    String.mk ('0' :: 'x' :: (jsHalfToHexStr (0x180 + concatenated.length) ++ concatenated))
  else
    let lenHexStr := jsHalfToHexStr concatenated.length
    let lenBytes2 := 2 * ((lenHexStr.length + 1) / 2)
    String.mk ('0' :: 'x' :: (jsHalfToHexStr (0x1ee + lenBytes2)
      ++ padStartZeros lenBytes2 lenHexStr ++ concatenated))

/-- `h.slice(2)`: an encoded child without its `0x` marker. -/
def stripHexMarker (s : String) : List Char := s.data.drop 2

mutual

/-- `rlpEncode` of `ledger/account.ts`. -/
def rlpEncode : RlpInput → String
  | .str s => rlpStrBody s
  | .other => "0x80"
  | .list xs => rlpListBody ((rlpEncodeAll xs).map stripHexMarker)

/-- `input.map(rlpEncode)` over the children of an array input. -/
def rlpEncodeAll : List RlpInput → List String
  | [] => []
  | x :: xs => rlpEncode x :: rlpEncodeAll xs

end

/-- Well-formedness of an encoder output as `0x`-prefixed hex with an
even number of digits. -/
def isEvenHexString (s : String) : Bool :=
  match s.data with
  | '0' :: 'x' :: rest =>
    (!rest.isEmpty) && rest.all (fun c => (hexDigitVal c).isSome)
      && decide (rest.length % 2 = 0)
  | _ => false

/-- The connection states of `ledger/device.ts`. -/
inductive ConnState where
  | disconnected
  | connecting
  | connected
  | error
deriving DecidableEq, Repr

/-- The mutable state owned by `createLedgerDeviceManager`: the
`state` variable and whether `transport` is non-null. -/
structure DeviceManager where
  state : ConnState
  hasTransport : Bool
deriving DecidableEq, Repr

/-- One listener invocation: which listener (registration order), the
state it was notified with, and the manager's publicly readable state
at the moment of the call. -/
structure ListenerCall where
  listener : Nat
  notified : ConnState
  observed : ConnState
deriving DecidableEq, Repr

/-- `setState` of `createLedgerDeviceManager`: the state variable is
assigned first, then every one of the `k` registered listeners is
invoked synchronously in registration order. -/
def setState (k : Nat) (m : DeviceManager) (s : ConnState) :
    DeviceManager × List ListenerCall :=
  let m2 := { m with state := s }
  (m2, (List.range k).map fun i => ⟨i, s, m2.state⟩)

/-- `connect()` of `createLedgerDeviceManager` with the vendor
transport/app outcome abstracted as `vendorOk`; on failure the
classified error is re-thrown after the `error` transition. -/
def connect (k : Nat) (vendorOk : Bool) (m : DeviceManager) :
    DeviceManager × List ListenerCall :=
  if m.state = .connected ∧ m.hasTransport then (m, [])
  else
    let r1 := setState k m .connecting
    if vendorOk then
      let r2 := setState k { r1.1 with hasTransport := true } .connected
      (r2.1, r1.2 ++ r2.2)
    else
      let r2 := setState k { r1.1 with hasTransport := false } .error
      (r2.1, r1.2 ++ r2.2)

/-- `disconnect()` of `createLedgerDeviceManager`: best-effort close,
transport cleared, unconditional transition to `disconnected`. -/
def disconnect (k : Nat) (m : DeviceManager) : DeviceManager × List ListenerCall :=
  setState k { m with hasTransport := false } .disconnected

theorem hexDigitVal_digitChar {d : Nat} (h : d < 16) :
    hexDigitVal (Nat.digitChar d) = some d := by
  interval_cases d <;> decide

theorem digitChar_isDigit {d : Nat} (h : d < 10) :
    (Nat.digitChar d).isDigit = true := by
  interval_cases d <;> decide

theorem digitChar_toNat_sub {d : Nat} (h : d < 10) :
    (Nat.digitChar d).toNat - 48 = d := by
  interval_cases d <;> decide

theorem natDigits_zero (b : Nat) : natDigits b 0 = [] := rfl

theorem natDigitsAux_fuel {b : Nat} (hb : 2 ≤ b) :
    ∀ (f₁ f₂ n : Nat), n < f₁ → n < f₂ →
      natDigitsAux b n f₁ = natDigitsAux b n f₂ := by
  intro f₁
  induction f₁ with
  | zero => intro f₂ n h₁ _; omega
  | succ g ih =>
    intro f₂ n h₁ h₂
    cases f₂ with
    | zero => omega
    | succ h =>
      show (if n = 0 then [] else natDigitsAux b (n / b) g ++ [Nat.digitChar (n % b)]) =
        (if n = 0 then [] else natDigitsAux b (n / b) h ++ [Nat.digitChar (n % b)])
      by_cases hn : n = 0
      · simp [hn]
      · have hdiv : n / b < n := Nat.div_lt_self (Nat.pos_of_ne_zero hn) hb
        rw [if_neg hn, if_neg hn, ih h (n / b) (by omega) (by omega)]

theorem natDigits_pos {b n : Nat} (hb : 2 ≤ b) (hn : n ≠ 0) :
    natDigits b n = natDigits b (n / b) ++ [Nat.digitChar (n % b)] := by
  have hdiv : n / b < n := Nat.div_lt_self (Nat.pos_of_ne_zero hn) hb
  show (if n = 0 then [] else natDigitsAux b (n / b) n ++ [Nat.digitChar (n % b)]) = _
  rw [if_neg hn, natDigitsAux_fuel hb n (n / b + 1) (n / b) (by omega) (by omega)]
  rfl

theorem parseHexDigitsFrom_nil (a : Nat) : parseHexDigitsFrom a [] = some a := rfl

theorem parseHexDigitsFrom_cons (a : Nat) (c : Char) (cs : List Char) :
    parseHexDigitsFrom a (c :: cs) =
      (hexDigitVal c).bind fun d => parseHexDigitsFrom (16 * a + d) cs := rfl

theorem decValFrom_nil (a : Nat) : decValFrom a [] = a := rfl

theorem decValFrom_cons (a : Nat) (c : Char) (cs : List Char) :
    decValFrom a (c :: cs) = decValFrom (10 * a + (c.toNat - 48)) cs := rfl

theorem parseHexDigitsFrom_append (l₁ : List Char) :
    ∀ (a : Nat) (l₂ : List Char),
      parseHexDigitsFrom a (l₁ ++ l₂) =
        (parseHexDigitsFrom a l₁).bind fun x => parseHexDigitsFrom x l₂ := by
  induction l₁ with
  | nil => intro a l₂; rfl
  | cons c cs ih =>
    intro a l₂
    rw [List.cons_append, parseHexDigitsFrom_cons, parseHexDigitsFrom_cons]
    cases hexDigitVal c with
    | none => simp
    | some d => simpa using ih _ _

theorem decValFrom_append (l₁ : List Char) :
    ∀ (a : Nat) (l₂ : List Char),
      decValFrom a (l₁ ++ l₂) = decValFrom (decValFrom a l₁) l₂ := by
  induction l₁ with
  | nil => intro a l₂; rfl
  | cons c cs ih => intro a l₂; exact ih (10 * a + (c.toNat - 48)) l₂

theorem parseHexDigitsFrom_singleton (a : Nat) {d : Nat} (h : d < 16) :
    parseHexDigitsFrom a [Nat.digitChar d] = some (16 * a + d) := by
  rw [parseHexDigitsFrom_cons, hexDigitVal_digitChar h]
  rfl

theorem decValFrom_singleton (a : Nat) {d : Nat} (h : d < 10) :
    decValFrom a [Nat.digitChar d] = 10 * a + d := by
  rw [decValFrom_cons, digitChar_toNat_sub h]
  rfl

theorem parseHexDigitsFrom_natDigits (n : Nat) :
    ∀ a : Nat, parseHexDigitsFrom a (natDigits 16 n) =
      some (a * 16 ^ (natDigits 16 n).length + n) := by
  induction n using Nat.strong_induction_on with
  | _ n ih =>
    intro a
    by_cases hn : n = 0
    · subst hn; rw [natDigits_zero, parseHexDigitsFrom_nil]; simp
    · have hd : n % 16 < 16 := Nat.mod_lt _ (by norm_num)
      have hmod : 16 * (n / 16) + n % 16 = n := Nat.div_add_mod n 16
      rw [natDigits_pos (by norm_num) hn, parseHexDigitsFrom_append,
        ih (n / 16) (Nat.div_lt_self (Nat.pos_of_ne_zero hn) (by norm_num)),
        Option.some_bind, parseHexDigitsFrom_singleton _ hd]
      congr 1
      calc 16 * (a * 16 ^ (natDigits 16 (n / 16)).length + n / 16) + n % 16
          = a * 16 ^ ((natDigits 16 (n / 16)).length + 1) + (16 * (n / 16) + n % 16) := by
            rw [pow_succ]; ring
        _ = a * 16 ^ (natDigits 16 (n / 16) ++ [Nat.digitChar (n % 16)]).length + n := by
            rw [hmod]; simp

theorem decValFrom_natDigits (n : Nat) :
    ∀ a : Nat, decValFrom a (natDigits 10 n) =
      a * 10 ^ (natDigits 10 n).length + n := by
  induction n using Nat.strong_induction_on with
  | _ n ih =>
    intro a
    by_cases hn : n = 0
    · subst hn; rw [natDigits_zero, decValFrom_nil]; simp
    · have hd : n % 10 < 10 := Nat.mod_lt _ (by norm_num)
      have hmod : 10 * (n / 10) + n % 10 = n := Nat.div_add_mod n 10
      rw [natDigits_pos (by norm_num) hn, decValFrom_append,
        ih (n / 10) (Nat.div_lt_self (Nat.pos_of_ne_zero hn) (by norm_num)),
        decValFrom_singleton _ hd]
      calc 10 * (a * 10 ^ (natDigits 10 (n / 10)).length + n / 10) + n % 10
          = a * 10 ^ ((natDigits 10 (n / 10)).length + 1) + (10 * (n / 10) + n % 10) := by
            rw [pow_succ]; ring
        _ = a * 10 ^ (natDigits 10 (n / 10) ++ [Nat.digitChar (n % 10)]).length + n := by
            rw [hmod]; simp

theorem natDigits_ten_isDigit (n : Nat) :
    ∀ c ∈ natDigits 10 n, c.isDigit = true := by
  induction n using Nat.strong_induction_on with
  | _ n ih =>
    intro c hc
    by_cases hn : n = 0
    · subst hn; simp [natDigits_zero] at hc
    · rw [natDigits_pos (by norm_num) hn] at hc
      rcases List.mem_append.mp hc with h | h
      · exact ih (n / 10) (Nat.div_lt_self (Nat.pos_of_ne_zero hn) (by norm_num)) c h
      · simp only [List.mem_singleton] at h
        subst h
        exact digitChar_isDigit (Nat.mod_lt _ (by norm_num))

theorem natDigits_ne_nil {b n : Nat} (hb : 2 ≤ b) (hn : n ≠ 0) :
    natDigits b n ≠ [] := by
  rw [natDigits_pos hb hn]
  simp

theorem natDigits_length_le {b : Nat} (hb : 2 ≤ b) :
    ∀ {k n : Nat}, n < b ^ k → (natDigits b n).length ≤ k := by
  intro k
  induction k with
  | zero =>
    intro n hn
    simp only [pow_zero, Nat.lt_one_iff] at hn
    simp [hn, natDigits_zero]
  | succ k ih =>
    intro n hn
    by_cases h0 : n = 0
    · simp [h0, natDigits_zero]
    · rw [natDigits_pos hb h0]
      have : n / b < b ^ k := by
        rw [Nat.div_lt_iff_lt_mul (by omega)]
        calc n < b ^ (k + 1) := hn
          _ = b ^ k * b := by rw [pow_succ]
      simpa using Nat.succ_le_succ (ih this)

theorem parseHexDigitsFrom_replicate_zero (m : Nat) (l : List Char) :
    parseHexDigitsFrom 0 (List.replicate m '0' ++ l) = parseHexDigitsFrom 0 l := by
  induction m with
  | zero => simp
  | succ m ih =>
    rw [List.replicate_succ, List.cons_append, parseHexDigitsFrom_cons]
    have h0 : hexDigitVal '0' = some 0 := by decide
    rw [h0]
    simpa using ih

theorem pad64_length {ds : List Char} (h : ds.length ≤ 64) :
    (pad64 ds).length = 64 := by
  simp [pad64]
  omega

theorem parseHexNat_mk (rest : List Char) :
    parseHexNat (String.mk ('0' :: 'x' :: rest)) =
      if rest.isEmpty then none else parseHexDigitsFrom 0 rest := rfl

theorem parseHexDigitsFrom_pad64 (n : Nat) :
    parseHexDigitsFrom 0 (pad64 (natDigits 16 n)) = some n := by
  rw [pad64, parseHexDigitsFrom_replicate_zero, parseHexDigitsFrom_natDigits]
  simp

theorem pow_sixteen_64 : (16 : Nat) ^ 64 = 2 ^ 256 := by decide

theorem natDigits16_length_le {n : Nat} (h : n < 2 ^ 256) :
    (natDigits 16 n).length ≤ 64 :=
  natDigits_length_le (by norm_num) (by rw [pow_sixteen_64]; exact h)

theorem pad64_ne_nil {n : Nat} (h : n < 2 ^ 256) :
    (pad64 (natDigits 16 n)).isEmpty = false := by
  have := pad64_length (natDigits16_length_le h)
  cases hp : pad64 (natDigits 16 n) with
  | nil => rw [hp] at this; simp at this
  | cons c cs => rfl

/-- C1: at a 256-byte field (512 hex digits of zero), the long-string
branch of `rlpEncode` computes `lengthOfLength` as
`"100".length / 2 + "100".length % 2 = 2.5`, so the emitted prefix text
is `(0xb7 + 2.5).toString(16) = "b9.8"` and the length field is padded
to five digits `"00100"`: the output is not well-formed even-length hex
(correct RLP would be the prefix byte `0xb9` followed by the two length
bytes `0x0100`). -/
theorem claim_C1_rlp_long_string_malformed_at_256 :
    rlpEncode (.str (String.mk ('0' :: 'x' :: List.replicate 512 '0'))) =
      String.mk ('0' :: 'x' :: 'b' :: '9' :: '.' :: '8' :: '0' :: '0' :: '1' :: '0' :: '0' ::
        List.replicate 512 '0') ∧
    isEvenHexString
      (rlpEncode (.str (String.mk ('0' :: 'x' :: List.replicate 512 '0')))) = false := by
  constructor <;> decide

/-- C3, counterexample: both classifiers throw a `TypeError` (modelled
as `none`) on `null`/`undefined`, because `err.message` (resp.
`err.code`) is read before any guard — they are not total over those
inputs. -/
theorem claim_C3_counterexample :
    mapLedgerError LedgerFault.nullish = none ∧
    mapTrezorError TrezorFault.nullish = none :=
  ⟨rfl, rfl⟩

/-- C3, amended: for every input other than `null`/`undefined`, both
classifiers return a classified error without throwing; an
already-classified `HardwareWalletError` is returned unchanged, so
re-classifying any classifier output returns it unchanged
(idempotence). -/
theorem claim_C3_amended :
    (∀ f : LedgerFault, f ≠ .nullish → (mapLedgerError f).isSome = true) ∧
    (∀ g : TrezorFault, g ≠ .nullish → (mapTrezorError g).isSome = true) ∧
    (∀ e, mapLedgerError (.hw e) = some e) ∧
    (∀ e, mapTrezorError (.hw e) = some e) ∧
    (∀ (f : LedgerFault) (e), mapLedgerError f = some e →
      mapLedgerError (.hw e) = some e) ∧
    (∀ (g : TrezorFault) (e), mapTrezorError g = some e →
      mapTrezorError (.hw e) = some e) := by
  refine ⟨?_, ?_, fun e => rfl, fun e => rfl, fun f e _ => rfl, fun g e _ => rfl⟩
  · intro f hf
    cases f with
    | nullish => exact absurd rfl hf
    | hw e => rfl
    | obj sc msg errName toStr => rfl
  · intro g hg
    cases g with
    | nullish => exact absurd rfl hg
    | hw e => rfl
    | obj code msg errorField toStr => rfl

/-- C3 witness: the amended theorem applied to two concrete non-null
faults. -/
theorem claim_C3_amended_witness :
    (mapLedgerError (.obj none none none "boom")).isSome = true ∧
    (mapTrezorError (.obj none none none "boom")).isSome = true :=
  ⟨claim_C3_amended.1 (.obj none none none "boom") (by decide),
    claim_C3_amended.2.1 (.obj none none none "boom") (by decide)⟩

/-- C4, counterexample: the message heuristics of `mapLedgerError` use
the case-sensitive `String.prototype.includes`, so the upper-case
message `"DENIED"` is not classified as a user rejection but falls
through to the `UNKNOWN_ERROR` case. -/
theorem claim_C4_counterexample :
    mapLedgerError (.obj none (some "DENIED") none "") =
      some (hwError "DENIED" "UNKNOWN_ERROR") ∧
    hwError "DENIED" "UNKNOWN_ERROR" ≠ UserRejectedError "signature" := by
  constructor <;> decide

/-- C4, amended: when no numeric status code matches, `mapLedgerError`
falls back to case-sensitive substring matching on the message (only
the `"0x6faa"` probe lowercases the message first): a message containing
`"denied"`, `"rejected"` or `"0x6985"` yields UserRejected; otherwise
`"locked"`/`"pin"`/case-insensitive `"0x6faa"` yields DeviceLocked;
otherwise `"not found"`/`"no device"` or the name
`TransportOpenUserCancelled` yields DeviceNotFound; otherwise `"app"`
together with `"open"` or `"launch"` yields AppNotOpen. -/
theorem claim_C4_amended (sc : Option Nat) (m : String) (nm : Option String) (ts : String)
    (hsc : ∀ c, sc = some c → ledgerStatusSwitch c m = none) :
    mapLedgerError (.obj sc (some m) nm ts) = some (ledgerHeuristics m nm) ∧
    ((strIncludes m "0x6985" || strIncludes m "denied" || strIncludes m "rejected") = true →
      ledgerHeuristics m nm = UserRejectedError "signature") ∧
    ((strIncludes m "0x6985" || strIncludes m "denied" || strIncludes m "rejected") = false →
      (strIncludes m "locked" || strIncludes m "pin"
        || strIncludes (jsToLower m) "0x6faa") = true →
      ledgerHeuristics m nm = DeviceLockedError "ledger") ∧
    ((strIncludes m "0x6985" || strIncludes m "denied" || strIncludes m "rejected") = false →
      (strIncludes m "locked" || strIncludes m "pin"
        || strIncludes (jsToLower m) "0x6faa") = false →
      (strIncludes m "not found" || strIncludes m "no device"
        || nm == some "TransportOpenUserCancelled") = true →
      ledgerHeuristics m nm = DeviceNotFoundError "ledger" m) ∧
    ((strIncludes m "0x6985" || strIncludes m "denied" || strIncludes m "rejected") = false →
      (strIncludes m "locked" || strIncludes m "pin"
        || strIncludes (jsToLower m) "0x6faa") = false →
      (strIncludes m "not found" || strIncludes m "no device"
        || nm == some "TransportOpenUserCancelled") = false →
      (strIncludes m "app" && (strIncludes m "open" || strIncludes m "launch")) = true →
      ledgerHeuristics m nm = AppNotOpenError "Ethereum") := by
  refine ⟨?_, ?_, ?_, ?_, ?_⟩
  · show some _ = some _
    cases sc with
    | none => rfl
    | some c => simp [hsc c rfl]
  · intro h1; simp [ledgerHeuristics, h1]
  · intro h1 h2; simp [ledgerHeuristics, h1, h2]
  · intro h1 h2 h3; simp [ledgerHeuristics, h1, h2, h3]
  · intro h1 h2 h3 h4; simp [ledgerHeuristics, h1, h2, h3, h4]

/-- C4 witness: the amended theorem applied to the lower-case message
`"denied"` with no status code. -/
theorem claim_C4_amended_witness :
    mapLedgerError (.obj none (some "denied") none "") =
      some (ledgerHeuristics "denied" none) ∧
    ledgerHeuristics "denied" none = UserRejectedError "signature" :=
  ⟨(claim_C4_amended none "denied" none "" (fun c hc => by cases hc)).1,
    (claim_C4_amended none "denied" none "" (fun c hc => by cases hc)).2.1 (by decide)⟩

/-- C5: `normalizeV` realizes exactly the four-way branch — for every
non-negative `v`: `v ∈ {0,1}` maps to `v + 27`; `v ∈ {27,28}` is
unchanged; `v ≥ 35` is unchanged; and every other `v` (the ranges
`[2,26]` and `[29,34]`) maps to `(v mod 2) + 27`. -/
theorem claim_C5_normalizeV_branches (v : Int) (hv : 0 ≤ v) :
    ((v = 0 ∨ v = 1) → normalizeV v = v + 27) ∧
    ((v = 27 ∨ v = 28) → normalizeV v = v) ∧
    (35 ≤ v → normalizeV v = v) ∧
    ((2 ≤ v ∧ v ≤ 26) ∨ (29 ≤ v ∧ v ≤ 34) → normalizeV v = v % 2 + 27) := by
  refine ⟨?_, ?_, ?_, ?_⟩
  · intro h; simp [normalizeV, h]
  · intro h
    have h01 : ¬(v = 0 ∨ v = 1) := by rcases h with h | h <;> subst h <;> decide
    simp [normalizeV, h01, h]
  · intro h
    have h01 : ¬(v = 0 ∨ v = 1) := by omega
    have h78 : ¬(v = 27 ∨ v = 28) := by omega
    simp only [normalizeV, h01, if_false, h78, h, if_true]
  · intro h
    have hlt : v < 26 + 9 := by omega
    have h2 : 2 ≤ v := by omega
    interval_cases v <;> simp_all <;> decide

/-- C5 witness: the branch theorem applied at `v = 30`
(the fallback range). -/
theorem claim_C5_normalizeV_branches_witness :
    normalizeV 30 = 30 % 2 + 27 :=
  (claim_C5_normalizeV_branches 30 (by decide)).2.2.2 (Or.inr (by decide))

/-- C7, counterexample: `parseSignatureBytes` does not convert to a
canonical 32-byte hex form — a one-byte `r` comes out as the two-digit
hex string `"0xab"`, not as 32 bytes (66 characters). -/
theorem claim_C7_counterexample :
    (parseSignatureBytes (.bytes [171]) (.bytes [205]) 27).r = "0xab" ∧
    (parseSignatureBytes (.bytes [171]) (.bytes [205]) 27).r.length ≠ 66 := by
  constructor <;> decide

/-- C7, amended: `parseSignatureBytes` auto-detects hex strings versus
byte sequences; a byte sequence is converted to the hex string spelling
exactly those bytes (no padding), so it yields output identical to
passing that hex string, and `v` is delegated to `normalizeV`. -/
theorem claim_C7_amended (bs₁ bs₂ : List Nat) (v : Int) :
    parseSignatureBytes (.bytes bs₁) (.bytes bs₂) v =
      parseSignatureBytes (.hex (oxHexFromBytes bs₁)) (.hex (oxHexFromBytes bs₂)) v ∧
    (parseSignatureBytes (.bytes bs₁) (.bytes bs₂) v).r = oxHexFromBytes bs₁ ∧
    (parseSignatureBytes (.bytes bs₁) (.bytes bs₂) v).s = oxHexFromBytes bs₂ ∧
    (parseSignatureBytes (.bytes bs₁) (.bytes bs₂) v).v = normalizeV v :=
  ⟨rfl, rfl, rfl, rfl⟩

/-- C2, counterexample: for the chain-protected `v = 37` the serialized
signature does not end in the byte `0x25` (= 37): the ox serialization
writes `27 + yParity`, here `0x1b`, so the output is not `r ∥ s ∥ v`. -/
theorem claim_C2_counterexample :
    serializeSignature
        ⟨String.mk ('0' :: 'x' :: List.replicate 64 'a'),
          String.mk ('0' :: 'x' :: List.replicate 64 'c'), 37⟩ =
      some (String.mk ('0' :: 'x' :: (List.replicate 64 'a' ++ List.replicate 64 'c'
        ++ ['1', 'b']))) ∧
    String.mk ('0' :: 'x' :: (List.replicate 64 'a' ++ List.replicate 64 'c' ++ ['1', 'b'])) ≠
      String.mk ('0' :: 'x' :: (List.replicate 64 'a' ++ List.replicate 64 'c' ++ ['2', '5'])) := by
  constructor <;> decide

/-- C2, amended: for components whose `r` and `s` parse as values below
`2^256`, `serializeSignature` returns `0x` plus 130 hex digits:
`r` and `s` zero-padded to 32 bytes each, followed by the single byte
`27 + yParity` (`1b`/`1c`) where `yParity` is 1 iff `v = 28` or `v` is
even — equal to `r ∥ s ∥ v` exactly for `v ∈ {27, 28}`, but not for
chain-protected `v ≥ 35`. -/
theorem claim_C2_amended (r s : String) (v : Int) (rv sv : Nat)
    (hr : parseHexNat r = some rv) (hs : parseHexNat s = some sv)
    (hrv : rv < 2 ^ 256) (hsv : sv < 2 ^ 256) :
    serializeSignature ⟨r, s, v⟩ =
      some (String.mk ('0' :: 'x' :: (pad64 (natDigits 16 rv) ++ pad64 (natDigits 16 sv)
        ++ (if jsYParity v = 0 then ['1', 'b'] else ['1', 'c'])))) ∧
    ∀ out, serializeSignature ⟨r, s, v⟩ = some out → out.length = 132 := by
  have h1 : serializeSignature ⟨r, s, v⟩ =
      some (String.mk ('0' :: 'x' :: (pad64 (natDigits 16 rv) ++ pad64 (natDigits 16 sv)
        ++ (if jsYParity v = 0 then ['1', 'b'] else ['1', 'c'])))) := by
    simp only [serializeSignature, hr, hs, Option.some_bind, oxSignatureToHex]
    rw [if_pos ⟨hrv, hsv⟩]
  refine ⟨h1, ?_⟩
  intro out hout
  have hlr := pad64_length (natDigits16_length_le hrv)
  have hls := pad64_length (natDigits16_length_le hsv)
  have hif : (if jsYParity v = 0 then ['1', 'b'] else ['1', 'c']).length = 2 := by
    by_cases hy : jsYParity v = 0 <;> simp [hy]
  have hdata : out = String.mk ('0' :: 'x' :: (pad64 (natDigits 16 rv)
      ++ pad64 (natDigits 16 sv)
      ++ (if jsYParity v = 0 then ['1', 'b'] else ['1', 'c']))) :=
    (Option.some.inj (h1.symm.trans hout)).symm
  rw [hdata]
  show ('0' :: 'x' :: (pad64 (natDigits 16 rv) ++ pad64 (natDigits 16 sv)
    ++ (if jsYParity v = 0 then ['1', 'b'] else ['1', 'c']))).length = 132
  rw [List.length_cons, List.length_cons, List.length_append, List.length_append,
    hlr, hls, hif]

/-- C2 witness: the amended theorem applied to concrete 32-byte values
with `v = 27`. -/
theorem claim_C2_amended_witness :
    serializeSignature
        ⟨String.mk ('0' :: 'x' :: List.replicate 64 'a'),
          String.mk ('0' :: 'x' :: List.replicate 64 'c'), 27⟩ =
      some (String.mk ('0' :: 'x' ::
        (pad64 (natDigits 16 0xaaaaaaaaaaaaaaaaaaaaaaaaaaaaaaaaaaaaaaaaaaaaaaaaaaaaaaaaaaaaaaaa)
          ++ pad64 (natDigits 16 0xcccccccccccccccccccccccccccccccccccccccccccccccccccccccccccccccc)
          ++ (if jsYParity 27 = 0 then ['1', 'b'] else ['1', 'c'])))) :=
  (claim_C2_amended
    (String.mk ('0' :: 'x' :: List.replicate 64 'a'))
    (String.mk ('0' :: 'x' :: List.replicate 64 'c')) 27
    0xaaaaaaaaaaaaaaaaaaaaaaaaaaaaaaaaaaaaaaaaaaaaaaaaaaaaaaaaaaaaaaaa
    0xcccccccccccccccccccccccccccccccccccccccccccccccccccccccccccccccc
    (by decide) (by decide) (by decide) (by decide)).1

/-- C6: `normalizeS` is idempotent (as a partial function under `bind`),
every value it outputs is at most `curveOrder / 2`, and on the concrete
high value `n - 1` it outputs the strictly smaller value `1`. -/
theorem claim_C6_normalizeS :
    (∀ (s : String) (sv : Nat), parseHexNat s = some sv →
      ((normalizeS s).bind normalizeS = normalizeS s) ∧
      (∀ t tv, normalizeS s = some t → parseHexNat t = some tv → tv ≤ halfOrder)) ∧
    normalizeS "0xfffffffffffffffffffffffffffffffebaaedce6af48a03bbfd25e8cd0364140" =
      some "0x0000000000000000000000000000000000000000000000000000000000000001" ∧
    parseHexNat "0xfffffffffffffffffffffffffffffffebaaedce6af48a03bbfd25e8cd0364140" =
      some (curveOrder - 1) ∧
    parseHexNat "0x0000000000000000000000000000000000000000000000000000000000000001" =
      some 1 ∧
    (1 : Nat) < curveOrder - 1 := by
  have hodd : curveOrder = 2 * halfOrder + 1 := by decide
  have hcbound : curveOrder < 2 ^ 256 := by decide
  refine ⟨?_, by rfl, by rfl, by rfl, by decide⟩
  intro s sv hparse
  by_cases hlow : halfOrder < sv
  · by_cases hord : sv ≤ curveOrder
    · have htn : ((curveOrder : Int) - (sv : Int)).toNat = curveOrder - sv := by omega
      have hnn : ¬((curveOrder : Int) - (sv : Int) < 0) := by omega
      have hmb : curveOrder - sv < 2 ^ 256 := by omega
      have hout : normalizeS s =
          some (String.mk ('0' :: 'x' :: pad64 (natDigits 16 (curveOrder - sv)))) := by
        simp only [normalizeS, hparse, Option.some_bind, if_pos hlow, oxHexFromNumber32,
          if_neg hnn, htn, if_pos hmb]
      have hparse2 : parseHexNat
          (String.mk ('0' :: 'x' :: pad64 (natDigits 16 (curveOrder - sv)))) =
          some (curveOrder - sv) := by
        rw [parseHexNat_mk, pad64_ne_nil hmb, parseHexDigitsFrom_pad64 _]
        rfl
      have hle : curveOrder - sv ≤ halfOrder := by omega
      constructor
      · rw [hout, Option.some_bind]
        simp only [normalizeS, hparse2, Option.some_bind]
        rw [if_neg (by omega)]
      · intro t tv ht htv
        rw [hout] at ht
        rw [← Option.some.inj ht, hparse2] at htv
        rw [← Option.some.inj htv] at *
        omega
    · have hneg : (curveOrder : Int) - (sv : Int) < 0 := by omega
      have hout : normalizeS s = none := by
        simp only [normalizeS, hparse, Option.some_bind, if_pos hlow, oxHexFromNumber32,
          if_pos hneg]
      rw [hout]
      exact ⟨rfl, fun t tv ht _ => by cases ht⟩
  · have hout : normalizeS s = some s := by
      simp only [normalizeS, hparse, Option.some_bind, if_neg hlow]
    constructor
    · rw [hout, Option.some_bind, hout]
    · intro t tv ht htv
      rw [hout] at ht
      rw [← Option.some.inj ht] at htv
      rw [hparse] at htv
      rw [← Option.some.inj htv]
      omega

/-- C6 witness: idempotence and the output bound of the main theorem
applied at the concrete low value `"0x01"`. -/
theorem claim_C6_normalizeS_witness :
    (normalizeS "0x01").bind normalizeS = normalizeS "0x01" :=
  (claim_C6_normalizeS.1 "0x01" 1 (by rfl)).1

theorem filterCalls_range_of_ge (s o : ConnState) (i : Nat) :
    ∀ k, k ≤ i →
      (((List.range k).map fun j => (⟨j, s, o⟩ : ListenerCall)).filter
        fun n => n.listener == i) = [] := by
  intro k
  induction k with
  | zero => intro _; rfl
  | succ k ih =>
    intro h
    rw [List.range_succ, List.map_append, List.filter_append, ih (by omega)]
    have hne : (k == i) = false := by simp; omega
    simp [List.filter, hne]

theorem filterCalls_range (s o : ConnState) {i : Nat} :
    ∀ {k : Nat}, i < k →
      (((List.range k).map fun j => (⟨j, s, o⟩ : ListenerCall)).filter
        fun n => n.listener == i) = [⟨i, s, o⟩] := by
  intro k
  induction k with
  | zero => intro h; omega
  | succ k ih =>
    intro h
    rw [List.range_succ, List.map_append, List.filter_append]
    by_cases hik : i < k
    · rw [ih hik]
      have hne : (k == i) = false := by simp; omega
      simp [List.filter, hne]
    · have hik2 : i = k := by omega
      subst hik2
      rw [filterCalls_range_of_ge s o i i le_rfl]
      simp [List.filter]

/-- C8: from the `disconnected` state with `k` registered listeners, a
successful `connect()` followed by `disconnect()` produces exactly the
notification blocks `connecting`, `connected`, `disconnected` — each
block invoking the listeners once, in registration order; every
invocation observes a public state already equal to the notified state;
per listener the notified sequence is exactly
`[connecting, connected, disconnected]`; and the machine passes through
`connected` and ends `disconnected`. -/
theorem claim_C8_connect_disconnect_trace (k : Nat) :
    (connect k true ⟨.disconnected, false⟩).2 ++
        (disconnect k (connect k true ⟨.disconnected, false⟩).1).2 =
      ((List.range k).map fun i => ⟨i, .connecting, .connecting⟩) ++
        ((List.range k).map fun i => ⟨i, .connected, .connected⟩) ++
        ((List.range k).map fun i => ⟨i, .disconnected, .disconnected⟩) ∧
    (connect k true ⟨.disconnected, false⟩).1.state = .connected ∧
    (disconnect k (connect k true ⟨.disconnected, false⟩).1).1.state = .disconnected ∧
    (∀ call ∈ (connect k true ⟨.disconnected, false⟩).2 ++
        (disconnect k (connect k true ⟨.disconnected, false⟩).1).2,
      call.observed = call.notified) ∧
    (∀ i, i < k →
      (((connect k true ⟨.disconnected, false⟩).2 ++
          (disconnect k (connect k true ⟨.disconnected, false⟩).1).2).filter
        (fun n => n.listener == i)).map ListenerCall.notified =
        [.connecting, .connected, .disconnected]) := by
  have htrace : (connect k true ⟨.disconnected, false⟩).2 ++
      (disconnect k (connect k true ⟨.disconnected, false⟩).1).2 =
      ((List.range k).map fun i => ⟨i, .connecting, .connecting⟩) ++
        ((List.range k).map fun i => ⟨i, .connected, .connected⟩) ++
        ((List.range k).map fun i => ⟨i, .disconnected, .disconnected⟩) := by
    simp [connect, disconnect, setState]
  refine ⟨htrace, by simp [connect, setState], by simp [connect, disconnect, setState], ?_, ?_⟩
  · intro call hcall
    rw [htrace] at hcall
    rcases List.mem_append.mp hcall with hc | hc
    · rcases List.mem_append.mp hc with hc2 | hc2 <;>
        · obtain ⟨j, _, rfl⟩ := List.mem_map.mp hc2; rfl
    · obtain ⟨j, _, rfl⟩ := List.mem_map.mp hc; rfl
  · intro i hi
    rw [htrace, List.filter_append, List.filter_append,
      filterCalls_range _ _ hi, filterCalls_range _ _ hi, filterCalls_range _ _ hi]
    rfl

/-- C8 witness: the trace theorem applied with two registered
listeners, projected to the second listener. -/
theorem claim_C8_connect_disconnect_trace_witness :
    (((connect 2 true ⟨.disconnected, false⟩).2 ++
        (disconnect 2 (connect 2 true ⟨.disconnected, false⟩).1).2).filter
      (fun n => n.listener == 1)).map ListenerCall.notified =
      [.connecting, .connected, .disconnected] :=
  (claim_C8_connect_disconnect_trace 2).2.2.2.2 1 (by decide)

theorem splitSlash_nil : splitSlash [] = [[]] := rfl

theorem splitSlash_cons (c : Char) (rest : List Char) :
    splitSlash (c :: rest) =
      if c = '/' then [] :: splitSlash rest
      else
        match splitSlash rest with
        | [] => [[c]]
        | s :: ss => (c :: s) :: ss := rfl

theorem splitSlash_ne_nil : ∀ l : List Char, splitSlash l ≠ [] := by
  intro l
  cases l with
  | nil => simp [splitSlash_nil]
  | cons c rest =>
    rw [splitSlash_cons]
    by_cases hc : c = '/'
    · simp [hc]
    · rw [if_neg hc]
      cases splitSlash rest <;> simp

theorem splitSlash_no_slash : ∀ l : List Char, (∀ c ∈ l, c ≠ '/') → splitSlash l = [l] := by
  intro l
  induction l with
  | nil => intro _; rfl
  | cons c rest ih =>
    intro h
    rw [splitSlash_cons, if_neg (h c (by simp)), ih fun x hx => h x (by simp [hx])]

theorem splitSlash_append_slash (t : List Char) (ht : ∀ c ∈ t, c ≠ '/') :
    ∀ xs : List Char, splitSlash (xs ++ '/' :: t) = splitSlash xs ++ [t] := by
  intro xs
  induction xs with
  | nil =>
    rw [List.nil_append, splitSlash_cons, if_pos rfl, splitSlash_no_slash t ht]
    rfl
  | cons c xs ih =>
    rw [List.cons_append, splitSlash_cons, splitSlash_cons]
    by_cases hc : c = '/'
    · rw [if_pos hc, if_pos hc, ih]
      rfl
    · rw [if_neg hc, if_neg hc, ih]
      rcases hsp : splitSlash xs with _ | ⟨s, ss⟩
      · exact absurd hsp (splitSlash_ne_nil xs)
      · rfl

theorem jsDecString_data (n : Nat) :
    (jsDecString n).data = if n = 0 then ['0'] else natDigits 10 n := rfl

theorem jsDecString_all_digits (n : Nat) :
    ∀ c ∈ (jsDecString n).data, c.isDigit = true := by
  intro c hc
  rw [jsDecString_data] at hc
  by_cases hn : n = 0
  · rw [if_pos hn] at hc
    simp only [List.mem_singleton] at hc
    subst hc; decide
  · rw [if_neg hn] at hc
    exact natDigits_ten_isDigit n c hc

theorem jsDecString_data_ne_nil (n : Nat) : (jsDecString n).data ≠ [] := by
  rw [jsDecString_data]
  by_cases hn : n = 0
  · simp [hn]
  · rw [if_neg hn]
    exact natDigits_ne_nil (by norm_num) hn

theorem isDigit_ne_slash {c : Char} (h : c.isDigit = true) : c ≠ '/' := by
  intro hc; subst hc; exact absurd h (by decide)

theorem isDigit_ne_apos {c : Char} (h : c.isDigit = true) : c ≠ '\'' := by
  intro hc; subst hc; exact absurd h (by decide)

theorem segIsHardened_digits {l : List Char} (hd : ∀ c ∈ l, c.isDigit = true) :
    segIsHardened l = false := by
  rw [segIsHardened]
  cases hl : l.getLast? with
  | none => rfl
  | some c =>
    have hc : c ∈ l := List.mem_of_mem_getLast? (by rw [hl]; rfl)
    have : c ≠ '\'' := isDigit_ne_apos (hd c hc)
    simp [this]

theorem parseSeg_jsDecString (n : Nat) :
    parseSeg (jsDecString n).data = ⟨n, false⟩ := by
  have hh : segIsHardened (jsDecString n).data = false :=
    segIsHardened_digits (jsDecString_all_digits n)
  rw [parseSeg, segNumStr, hh]
  simp only [if_false, Bool.false_eq_true]
  rw [jsDecString_data]
  by_cases hn : n = 0
  · simp [hn, decValFrom_cons, decValFrom_nil]
  · rw [if_neg hn, decValFrom_natDigits]
    simp

theorem startsWithMSlash_shape {s : String} (h : startsWithMSlash s = true) :
    ∃ r : List Char, s.data = 'm' :: '/' :: r := by
  have hs : startsWithMSlashL s.data = true := h
  rcases hd : s.data with _ | ⟨c₁, _ | ⟨c₂, r⟩⟩
  · rw [hd] at hs; cases hs
  · rw [hd] at hs; cases hs
  · rw [hd] at hs
    have hmc : (c₁ == 'm' && c₂ == '/') = true := hs
    simp only [Bool.and_eq_true, beq_iff_eq] at hmc
    obtain ⟨hm, hsl⟩ := hmc
    subst hm; subst hsl
    exact ⟨r, rfl⟩

/-- C10: whenever `buildPath` returns a path instead of throwing, the
returned path satisfies `isValidPath` — the full concatenated path is
re-validated before being returned. -/
theorem claim_C10_buildPath_returns_valid (base : String) (idx : JsNum) (p : String)
    (h : buildPath base idx = some p) : isValidPath p = true := by
  simp only [buildPath] at h
  split_ifs at h with h1 h2 h3
  rw [← Option.some.inj h]
  exact h3

/-- C10 witness: the invariant applied to a concrete successful build. -/
theorem claim_C10_buildPath_returns_valid_witness :
    isValidPath "m/44'/60'/0'/0/5" = true :=
  claim_C10_buildPath_returns_valid "m/44'/60'/0'/0" (.int 5) "m/44'/60'/0'/0/5" (by decide)

/-- C9: `buildPath "m/44'/60'/0'/0" 5 = "m/44'/60'/0'/0/5"`, and in
general for every valid base path and every integer index on which
`buildPath` succeeds, parsing the built path yields the parse of the
base path with one extra final unhardened segment carrying that
index. -/
theorem claim_C9_buildPath_parsePath_round_trip :
    buildPath "m/44'/60'/0'/0" (.int 5) = some "m/44'/60'/0'/0/5" ∧
    ∀ (base : String) (i : Int) (p : String) (segs : List PathSegment),
      isValidPath base = true → buildPath base (.int i) = some p →
      parsePath base = some segs →
      parsePath p = some (segs ++ [⟨i.toNat, false⟩]) := by
  refine ⟨by decide, ?_⟩
  intro base i p segs hvb hbuild hparse
  simp only [buildPath] at hbuild
  split_ifs at hbuild with h1 h2 h3
  have hp : p = base ++ "/" ++ jsDecString (jsNumToNat (.int i)) :=
    (Option.some.inj hbuild).symm
  subst hp
  have hms : startsWithMSlash base = true := by
    by_contra hc
    exact h1 (by simp [Bool.not_eq_true] at hc; simp [hc])
  obtain ⟨r0, hr0⟩ := startsWithMSlash_shape hms
  have hdec : (jsDecString (jsNumToNat (.int i))).data = (jsDecString i.toNat).data := rfl
  have hslash : ("/" : String).data = ['/'] := rfl
  have hpdata : (base ++ "/" ++ jsDecString (jsNumToNat (.int i))).data =
      'm' :: '/' :: (r0 ++ '/' :: (jsDecString i.toNat).data) := by
    rw [String.data_append, String.data_append, hr0, hdec, hslash]
    simp
  have hsplit : splitSlash ((base ++ "/" ++ jsDecString (jsNumToNat (.int i))).data.drop 2) =
      splitSlash r0 ++ [(jsDecString i.toNat).data] := by
    rw [hpdata]
    show splitSlash (r0 ++ '/' :: (jsDecString i.toNat).data) = _
    exact splitSlash_append_slash _
      (fun c hc => isDigit_ne_slash (jsDecString_all_digits _ c hc)) r0
  have hbase : splitSlash (base.data.drop 2) = splitSlash r0 := by rw [hr0]; rfl
  have hsegs : segs = (splitSlash r0).map parseSeg := by
    simp only [parsePath, hvb, if_true, hbase] at hparse
    exact (Option.some.inj hparse).symm
  simp only [parsePath, h3, if_true, hsplit, List.map_append, hsegs]
  simp [parseSeg_jsDecString]

/-- C9 witness: the round trip applied to the concrete base path and
index 5. -/
theorem claim_C9_buildPath_parsePath_round_trip_witness :
    parsePath "m/44'/60'/0'/0/5" =
      some ([⟨44, true⟩, ⟨60, true⟩, ⟨0, true⟩, ⟨0, false⟩] ++ [⟨5, false⟩]) :=
  claim_C9_buildPath_parsePath_round_trip.2 "m/44'/60'/0'/0" 5 "m/44'/60'/0'/0/5"
    [⟨44, true⟩, ⟨60, true⟩, ⟨0, true⟩, ⟨0, false⟩]
    (by decide) (by decide) (by decide)

end ViemHW
